import Mathlib

/-!
Verification development for the hangman-server repository.

The repository contains several iterative variants of the same server.
We embed the two variants the specification's claims reference:

* the "stable baseline" variant of `src/server.js` (lines 574-996 of the
  concatenated file; suffix `SB` below), and
* the wrong-guess-limit variant `src/unnamed/part_001` (suffix `1` below).

Pure functions (`normalizePhrase`, `buildMasked`, `buildSetterOrder`) are
embedded directly; each socket handler is embedded as a function from a
session state and the caller's socket id to the new session state plus the
list of emitted events.  JavaScript strings are modelled as Lean `String`
(lists of characters); `String.prototype.toUpperCase` is modelled by the
ASCII uppercasing `Char.toUpper` (the allow-lists used by the code make the
difference on exotic non-ASCII characters immaterial), and the regex `\s`
class / `String.prototype.trim` by the JavaScript whitespace set `jsWs`.
-/

namespace Hangman

/-! ## Characters -/

/-- Letters `a`-`z`, the class the code's uppercasing acts on. -/
def isLowerAlpha (c : Char) : Bool := 97 ≤ c.toNat && c.toNat ≤ 122

/-- Letters `A`-`Z`, the class tested by the regex `[A-Z]` in `buildMasked`. -/
def isUpperAlpha (c : Char) : Bool := 65 ≤ c.toNat && c.toNat ≤ 90

/-- Letters `[A-Za-z]`, the class tested by `part_001`'s `buildMasked`. -/
def isAnyAlpha (c : Char) : Bool := isUpperAlpha c || isLowerAlpha c

/-- Model of `String.prototype.toUpperCase`, per character (ASCII fragment).
This is exactly core's `Char.toUpper`. -/
def upChar (c : Char) : Char := c.toUpper

/-- The JavaScript `\s` class (also used by `String.prototype.trim`). -/
def jsWsList : List Char :=
  [' ', '\t', '\n', '\r', Char.ofNat 0x0b, Char.ofNat 0x0c,
   Char.ofNat 0xa0, Char.ofNat 0x1680,
   Char.ofNat 0x2000, Char.ofNat 0x2001, Char.ofNat 0x2002, Char.ofNat 0x2003,
   Char.ofNat 0x2004, Char.ofNat 0x2005, Char.ofNat 0x2006, Char.ofNat 0x2007,
   Char.ofNat 0x2008, Char.ofNat 0x2009, Char.ofNat 0x200a,
   Char.ofNat 0x2028, Char.ofNat 0x2029, Char.ofNat 0x202f,
   Char.ofNat 0x205f, Char.ofNat 0x3000, Char.ofNat 0xfeff]

def jsWs (c : Char) : Bool := jsWsList.contains c

/-! ## JavaScript whitespace handling: `replace(/\s+/g, " ")` and `trim()` -/

/-- Transducer for `replace(/\s+/g, " ")`: `prevWs` records whether we are
inside a whitespace run whose single `' '` has already been emitted. -/
def collapseAux : List Char → Bool → List Char
  | [], _ => []
  | c :: rest, prevWs =>
    if jsWs c then
      if prevWs then collapseAux rest true
      else ' ' :: collapseAux rest true
    else c :: collapseAux rest false

/-- Model of `replace(/\s+/g, " ")`: every maximal whitespace run becomes one space. -/
def collapseWs (l : List Char) : List Char := collapseAux l false

/-- Remove a trailing whitespace run (the suffix half of `trim()`). -/
def trimRight : List Char → List Char
  | [] => []
  | c :: rest =>
    let r := trimRight rest
    if r.isEmpty && jsWs c then [] else c :: r

/-- Model of `String.prototype.trim`. -/
def jsTrim (l : List Char) : List Char := trimRight (l.dropWhile jsWs)

/-- No two adjacent whitespace characters (what the collapsing guarantees). -/
def noDoubleWs : List Char → Bool
  | [] => true
  | [_] => true
  | a :: b :: rest => (!(jsWs a && jsWs b)) && noDoubleWs (b :: rest)

def jsTrimStr (s : String) : String := ⟨jsTrim s.toList⟩

/-- Model of `String.prototype.toUpperCase` (ASCII fragment). -/
def jsUpper (s : String) : String := ⟨s.toList.map upChar⟩

/-- The canonicalisation pipeline of `normalizePhrase`:
uppercase, collapse whitespace runs, trim the ends. -/
def canonList (l : List Char) : List Char := jsTrim (collapseWs (l.map upChar))

def canonStr (s : String) : String := ⟨canonList s.toList⟩

/-! ## `normalizePhrase` — both allow-list variants -/

/-- Allow-list of `normalizePhrase` in `part_001` (lines 112-117) and in the
first variant of `server.js` (lines 92-97): no digits. -/
def allowedNP : List Char := "ABCDEFGHIJKLMNOPQRSTUVWXYZ '-.".toList

/-- Allow-list of `normalizePhrase` in the stable baseline of `server.js`
(lines 627-632): digits additionally allowed. -/
def allowedNPD : List Char := "ABCDEFGHIJKLMNOPQRSTUVWXYZ0123456789 '-.".toList

/-- Function `normalizePhrase` as in `src/unnamed/part_001` lines 112-117. -/
def normalizePhrase (input : String) : Option String :=
  let up := canonStr input
  if up.toList.all (fun c => allowedNP.contains c) then some up else none

/-- Function `normalizePhrase` as in `src/server.js` lines 627-632 (digits allowed). -/
def normalizePhraseD (input : String) : Option String :=
  let up := canonStr input
  if up.toList.all (fun c => allowedNPD.contains c) then some up else none

/-! ## `buildMasked` — both variants -/

/-- Per-character masking of `src/server.js` lines 634-641 (and 99-106):
only `[A-Z]` counts as a letter, membership is tested on the character
itself. -/
def maskCharSB (g : List Char) (c : Char) : Char :=
  if isUpperAlpha c then (if g.contains c then c else '_') else c

/-- Function `buildMasked` of `src/server.js` (stable baseline, lines 634-641). -/
def buildMasked (raw : String) (g : List Char) : String :=
  ⟨raw.toList.map (maskCharSB g)⟩

/-- Per-character masking of `src/unnamed/part_001` lines 119-126:
`[A-Za-z]` counts as a letter, membership is tested on the uppercased
character, and a revealed letter is printed uppercased. -/
def maskCharV1 (g : List Char) (c : Char) : Char :=
  if isAnyAlpha c then (if g.contains (upChar c) then upChar c else '_') else c

/-- Function `buildMasked` of `src/unnamed/part_001` (lines 119-126). -/
def buildMasked1 (raw : String) (g : List Char) : String :=
  ⟨raw.toList.map (maskCharV1 g)⟩

/-- The full guessed alphabet, for the round-trip property. -/
def fullAlphabet : List Char := "ABCDEFGHIJKLMNOPQRSTUVWXYZ".toList

/-! ## Data model

`Settings` carries the union of both variants' fields; the stable-baseline
handlers never read or write `wrongLimit`/`unlimitedWrong` (those fields
exist only in `part_001`'s sessions), and likewise `Round.wrongCount`,
`Round.guesserOrder` and `Round.turnIndex` are created lazily in the
stable baseline (JavaScript `undefined` until `submitPhrase`); we
initialise them to `0`/`[]`, which is observationally identical because
every read guards with `!r.guesserOrder || r.guesserOrder.length === 0`. -/

structure Player where
  id : String
  name : String
  isManager : Bool
  score : Nat
deriving DecidableEq, Repr

structure Settings where
  rounds : Nat
  minLen : Nat
  maxLen : Nat
  wrongLimit : Nat
  unlimitedWrong : Bool
deriving DecidableEq, Repr

/-- Default settings of `createSession` (both variants: rounds 3, length
bounds 3-50; `part_001` additionally wrongLimit 6, unlimitedWrong false). -/
def defaultSettings : Settings :=
  { rounds := 3, minLen := 3, maxLen := 50, wrongLimit := 6, unlimitedWrong := false }

inductive GPhase where
  | idle | waitingPhrase | active | won | over
deriving DecidableEq, Repr

structure Round where
  setterId : String
  raw : String
  masked : String
  hint : String
  hintShown : Bool
  guessedLetters : List Char
  wrongCount : Nat
  guesserOrder : List String
  turnIndex : Nat
  winnerId : Option String
deriving DecidableEq, Repr

structure Game where
  state : GPhase
  roundIndex : Int
  setterOrder : List String
  setterPointer : Nat
  round : Option Round
deriving DecidableEq, Repr

structure Session where
  atvSocketId : Option String
  players : List Player
  settings : Settings
  game : Option Game
deriving DecidableEq, Repr

/-- Events emitted by the handlers.  Targeted events carry the recipient's
socket id; `sessionPlayers` / `gameStateB` / `sessionEnded` / `gameHint`
are room-wide broadcasts. -/
inductive Event where
  | errJoin (target msg : String)
  | errPhrase (target msg : String)
  | errStart (target msg : String)
  | playerJoined (target : String) (isManager : Bool)
  | setterOk (target : String)
  | gameHint (hint : String)
  | sessionPlayers
  | gameStateB
  | sessionEnded
deriving DecidableEq, Repr

/-! ## Shared helpers (identical in both variants) -/

/-- Helper `currentTurnPlayerId` (`server.js` 643-647, `part_001` 128-132). -/
def currentTurnPlayerId (s : Session) : Option String :=
  match s.game with
  | none => none
  | some g =>
    match g.round with
    | none => none
    | some r =>
      if r.guesserOrder.length = 0 then none
      else r.guesserOrder.get? (r.turnIndex % r.guesserOrder.length)

/-- Helper `advanceTurn` (`server.js` 649-653, `part_001` 134-138), on the round. -/
def advanceTurnR (r : Round) : Round :=
  if r.guesserOrder.length = 0 then r
  else { r with turnIndex := (r.turnIndex + 1) % r.guesserOrder.length }

/-- Model of `s.players.find(p => p.id === pid)` followed by `found.score += pts`:
mutates the first matching player only. -/
def creditFirst (ps : List Player) (pid : String) (pts : Nat) : List Player :=
  match ps with
  | [] => []
  | p :: rest =>
    if p.id = pid then { p with score := p.score + pts } :: rest
    else p :: creditFirst rest pid pts

/-- The manager guard `s.players.find(p => p.id === socket.id && p.isManager)`. -/
def isManagerOf (s : Session) (sock : String) : Bool :=
  (s.players.find? (fun p => p.id = sock && p.isManager)).isSome

/-- Model of `String(name||"Player").slice(0,16)`. -/
def safeName16 (name : String) : String :=
  (if name = "" then "Player" else name).take 16

/-- Helper `buildSetterOrder` (`server.js` 952-958, `part_001` 68-75): the
join-order id list repeated once per lap; `Math.max(1, parseInt(rounds||1))`
is `max 1 rounds` on our `Nat`-valued field. -/
def buildSetterOrder (s : Session) : List String :=
  let ids := s.players.map (·.id)
  let laps := max 1 s.settings.rounds
  (List.replicate laps ids).flatten

/-- Helper `startWaitingForPhrase` (`server.js` 960-978, `part_001` 77-98), acting
on the game record: fresh round skeleton for the setter at the pointer. -/
def startWaitingForPhrase (g : Game) : Game :=
  let setterId := (g.setterOrder.get? g.setterPointer).getD ""
  { g with
    state := .waitingPhrase
    round := some
      { setterId := setterId, raw := "", masked := "", hint := "",
        hintShown := false, guessedLetters := [], wrongCount := 0,
        guesserOrder := [], turnIndex := 0, winnerId := none } }

/-! ## Broadcast projection (`part_001` lines 148-166) -/

structure GameStateView where
  state : GPhase
  roundsTotal : Nat
  roundIndex : Int
  setterId : Option String
  currentTurnId : Option String
  hintShown : Bool
  masked : String
  guessedLetters : List Char
  winnerId : Option String
  wrongLimit : Option Nat
  wrongCount : Nat
  scores : List (String × Nat)
deriving DecidableEq, Repr

/-- The `game:state` payload built by `emitGameState` in `part_001`
(lines 148-166).  Note there is no field carrying `raw`. -/
def gameStateView1 (s : Session) : GameStateView :=
  let g := s.game
  let r := g.bind (·.round)
  { state := (g.map (·.state)).getD .idle
    roundsTotal := s.settings.rounds
    roundIndex := (g.map (fun g => (g.setterPointer : Int))).getD (-1)
    setterId := r.map (·.setterId)
    currentTurnId :=
      match g with
      | some g => if g.state = .active then currentTurnPlayerId s else none
      | none => none
    hintShown := (r.map (·.hintShown)).getD false
    masked := (r.map (·.masked)).getD ""
    guessedLetters := (r.map (·.guessedLetters)).getD []
    winnerId := r.bind (·.winnerId)
    wrongLimit := if s.settings.unlimitedWrong then none else some s.settings.wrongLimit
    wrongCount := (r.map (·.wrongCount)).getD 0
    scores := s.players.map (fun p => (p.id, p.score)) }

/-! ## Handlers of `src/unnamed/part_001` (suffix `1`) -/

/-- Payload of `manager:setSettings`.  A field is `some k` when the client sent
an integer (`Number.isInteger` holds), `none` otherwise; `unlimitedWrong`
is `some b` when the client sent a boolean. -/
structure SettingsPayload where
  rounds : Option Int := none
  minLen : Option Int := none
  maxLen : Option Int := none
  wrongLimit : Option Int := none
  unlimitedWrong : Option Bool := none
deriving DecidableEq, Repr

/-- The three guarded updates shared by both `manager:setSettings` handlers
(`server.js` 780-782, `part_001` 255-257): each field is updated only when
the payload value is an integer within its bounds; the `maxLen` check reads
the (possibly just updated) `minLen`. -/
def applyCoreSettings (st0 : Settings) (p : SettingsPayload) : Settings :=
  let st1 := match p.rounds with
    | some k => if 1 ≤ k ∧ k ≤ 20 then { st0 with rounds := k.toNat } else st0
    | none => st0
  let st2 := match p.minLen with
    | some k => if 1 ≤ k ∧ k ≤ 40 then { st1 with minLen := k.toNat } else st1
    | none => st1
  match p.maxLen with
  | some k => if (st2.minLen : Int) ≤ k ∧ k ≤ 60 then { st2 with maxLen := k.toNat } else st2
  | none => st2

/-- The wrong-guess updates of `part_001` (lines 258-261): `unlimitedWrong`
taken when boolean; `wrongLimit` clamped to 1-26, only when wrong guesses
are (now) limited. -/
def applyWrongSettings (st3 : Settings) (p : SettingsPayload) : Settings :=
  let st4 := match p.unlimitedWrong with
    | some b => { st3 with unlimitedWrong := b }
    | none => st3
  if st4.unlimitedWrong then st4
  else
    match p.wrongLimit with
    | some k => { st4 with wrongLimit := (max 1 (min 26 k)).toNat }
    | none => st4

/-- Handler `manager:setSettings` of `part_001` (lines 252-263): manager-guarded,
sequential bounds-checked updates, wrongLimit clamped to 1-26 when wrong
guesses are limited.  No game-state lock. -/
def setSettings1 (s : Session) (sock : String) (p : SettingsPayload) :
    Session × List Event :=
  if ¬ isManagerOf s sock then (s, [])
  else
    ({ s with settings := applyWrongSettings (applyCoreSettings s.settings p) p },
     [.gameStateB])

/-- Handler `setter:submitPhrase` of `part_001` (lines 321-348): trims, checks the
full-string length against the configured bounds, then stores the
uppercased input — note: no character validation at all. -/
def submitPhrase1 (s : Session) (sock : String) (phrase hint : String) :
    Session × List Event :=
  match s.game with
  | none => (s, [])
  | some g =>
    if g.state ≠ .waitingPhrase then (s, [])
    else match g.round with
    | none => (s, [])
    | some r =>
      if r.setterId ≠ sock then (s, [])
      else
        let raw := jsTrimStr phrase
        if raw.length < s.settings.minLen ∨ raw.length > s.settings.maxLen then
          (s, [.errPhrase sock ("Phrase must be " ++ toString s.settings.minLen ++ "–"
                ++ toString s.settings.maxLen ++ " characters.")])
        else
          let raw2 := jsUpper raw
          let r2 : Round :=
            { r with
              raw := raw2
              hint := hint.take 120
              hintShown := false
              guessedLetters := []
              wrongCount := 0
              masked := buildMasked1 raw2 []
              guesserOrder := (s.players.filter (fun p => p.id ≠ r.setterId)).map (·.id)
              turnIndex := 0 }
          ({ s with game := some { g with state := .active, round := some r2 } },
           [.gameStateB, .setterOk sock])

/-- Handler `setter:showHint` (`part_001` 350-358 and `server.js` 850-858, the code
is identical): one-way flip of `hintShown`, broadcasting the hint once. -/
def showHint (s : Session) (sock : String) : Session × List Event :=
  match s.game with
  | none => (s, [])
  | some g =>
    if g.state ≠ .active then (s, [])
    else match g.round with
    | none => (s, [])
    | some r =>
      if sock ≠ r.setterId then (s, [])
      else if r.hintShown then (s, [])
      else
        ({ s with game := some { g with round := some { r with hintShown := true } } },
         [.gameHint r.hint, .gameStateB])

/-- Helper `finishRoundWithSetterWin` of `part_001` (lines 360-374): state `won`,
winner is the setter, `masked` reveals `raw`, and the setter's score grows
by 1 when the hint was not shown and by 2 when it was. -/
def finishRoundWithSetterWin (s : Session) (g : Game) (r : Round) :
    Session × List Event :=
  let r2 := { r with winnerId := some r.setterId, masked := r.raw }
  let pts := if r.hintShown then 2 else 1
  ({ s with
      players := creditFirst s.players r.setterId pts
      game := some { g with state := .won, round := some r2 } },
   [.gameStateB])

/-- Handler `player:guessLetter` of `part_001` (lines 376-410). -/
def guessLetter1 (s : Session) (sock : String) (letter : String) :
    Session × List Event :=
  match s.game with
  | none => (s, [])
  | some g =>
    if g.state ≠ .active then (s, [])
    else match g.round with
    | none => (s, [])
    | some r =>
      if currentTurnPlayerId s ≠ some sock then (s, [])
      else match letter.toList.map upChar with
      | [c] =>
        if ¬ isUpperAlpha c then (s, [])
        else if r.guessedLetters.contains c then (s, [])
        else
          let guessed := r.guessedLetters ++ [c]
          if r.raw.toList.contains c then
            let masked := buildMasked1 r.raw guessed
            if ¬ masked.toList.contains '_' then
              let pts := if r.hintShown then 1 else 2
              ({ s with
                  players := creditFirst s.players sock pts
                  game := some { g with
                    state := .won
                    round := some { r with
                      guessedLetters := guessed
                      masked := masked
                      winnerId := some sock } } },
               [.gameStateB])
            else
              ({ s with game := some { g with
                  round := some (advanceTurnR { r with guessedLetters := guessed,
                                                       masked := masked }) } },
               [.gameStateB])
          else
            let r2 := { r with guessedLetters := guessed, wrongCount := r.wrongCount + 1 }
            if ¬ s.settings.unlimitedWrong ∧ r2.wrongCount ≥ s.settings.wrongLimit then
              finishRoundWithSetterWin s g r2
            else
              ({ s with game := some { g with round := some (advanceTurnR r2) } },
               [.gameStateB])
      | _ => (s, [])

/-- Handler `player:solve` of `part_001` (lines 412-437). -/
def solve1 (s : Session) (sock : String) (guess : String) :
    Session × List Event :=
  match s.game with
  | none => (s, [])
  | some g =>
    if g.state ≠ .active then (s, [])
    else match g.round with
    | none => (s, [])
    | some r =>
      if currentTurnPlayerId s ≠ some sock then (s, [])
      else match normalizePhrase guess with
      | none => (s, [])
      | some normGuess =>
        if normGuess = r.raw then
          let pts := if r.hintShown then 1 else 2
          ({ s with
              players := creditFirst s.players sock pts
              game := some { g with
                state := .won
                round := some { r with
                  winnerId := some sock
                  masked := r.raw } } },
           [.gameStateB])
        else
          let r2 := { r with wrongCount := r.wrongCount + 1 }
          if ¬ s.settings.unlimitedWrong ∧ r2.wrongCount ≥ s.settings.wrongLimit then
            finishRoundWithSetterWin s g r2
          else
            ({ s with game := some { g with round := some (advanceTurnR r2) } },
             [.gameStateB])

/-- Remove the first player whose id is `sock`, reporting whether a player
was removed and whether that player was the manager. -/
def removeFirst (ps : List Player) (sock : String) : Option (Bool × List Player) :=
  match ps with
  | [] => none
  | p :: rest =>
    if p.id = sock then some (p.isManager, rest)
    else (removeFirst rest sock).map (fun x => (x.1, p :: x.2))

/-- Model of `s.players[0].isManager = true` after a manager left. -/
def promoteHead (ps : List Player) : List Player :=
  match ps with
  | [] => []
  | p :: rest => { p with isManager := true } :: rest

/-- Handler `disconnect` of `part_001` (lines 439-468).  Returns `none` when the
session is deleted from the registry (ATV disconnect). -/
def disconnect1 (s : Session) (sock : String) : Option Session × List Event :=
  if s.atvSocketId = some sock then (none, [.sessionEnded])
  else
    match removeFirst s.players sock with
    | none => (some s, [.sessionPlayers, .gameStateB])
    | some (wasManager, rest) =>
      let ps := if wasManager ∧ rest.length > 0 then promoteHead rest else rest
      let s1 := { s with players := ps }
      match s1.game with
      | none => (some s1, [.sessionPlayers, .gameStateB])
      | some g =>
        match g.round with
        | none => (some s1, [.sessionPlayers, .gameStateB])
        | some r =>
          let go := r.guesserOrder.erase sock
          let r2 := { r with guesserOrder := go }
          let s2 := { s1 with game := some { g with round := some r2 } }
          if go.length = 0 ∧ g.state = .active then
            let (s3, ev) := finishRoundWithSetterWin s2 { g with round := some r2 } r2
            (some s3, ev ++ [.sessionPlayers, .gameStateB])
          else
            (some s2, [.sessionPlayers, .gameStateB])

/-! ## Handlers of the stable baseline in `src/server.js` (suffix `SB`) -/

/-- Handler `player:join` of `server.js` (lines 721-736): capacity 10, first phone
becomes manager. -/
def joinSB (s : Session) (sock : String) (name : String) : Session × List Event :=
  if s.players.length ≥ 10 then
    (s, [.errJoin sock "Game is full (max 10 players)."])
  else
    let nm := safeName16 name
    let isMgr := s.players.length = 0
    ({ s with players := s.players ++ [⟨sock, nm, isMgr, 0⟩] },
     [.playerJoined sock isMgr, .sessionPlayers, .gameStateB])

/-- Model of the mutation `existing.id = socket.id` on the first name match:
reassign the first player with that name, reporting its manager flag. -/
def reassignByName (ps : List Player) (nm sock : String) :
    Option (Bool × List Player) :=
  match ps with
  | [] => none
  | p :: rest =>
    if p.name = nm then some (p.isManager, { p with id := sock } :: rest)
    else (reassignByName rest nm sock).map (fun x => (x.1, p :: x.2))

/-- Handler `player:rejoin` of `server.js` (lines 738-757): reuse the slot of the
first player with the same name, otherwise append a fresh player — with
`isManager` hard-coded to `false`. -/
def rejoinSB (s : Session) (sock : String) (name : String) : Session × List Event :=
  let nm := safeName16 name
  match reassignByName s.players nm sock with
  | some (mgr, ps) =>
    ({ s with players := ps }, [.playerJoined sock mgr, .sessionPlayers, .gameStateB])
  | none =>
    ({ s with players := s.players ++ [⟨sock, nm, false, 0⟩] },
     [.playerJoined sock false, .sessionPlayers, .gameStateB])

/-- Handler `manager:setSettings` of `server.js` (lines 771-784): as `part_001`'s
but with the step-3 lock — no mutation once the game is not idle — and
without the wrong-guess fields. -/
def setSettingsSB (s : Session) (sock : String) (p : SettingsPayload) :
    Session × List Event :=
  if ¬ isManagerOf s sock then (s, [])
  else if (s.game.map (·.state)).getD .idle ≠ .idle then (s, [])
  else
    ({ s with settings := applyCoreSettings s.settings p }, [.gameStateB])

/-- Handler `manager:startGame` of `server.js` (lines 787-803): needs the manager
and at least two players; builds the setter order, resets the pointer and
enters `waiting_phrase` (or stays idle on an empty order). -/
def startGameSB (s : Session) (sock : String) : Session × List Event :=
  if ¬ isManagerOf s sock then (s, [])
  else if s.players.length < 2 then
    (s, [.errStart sock "Need at least 2 players to start."])
  else
    let g0 : Game :=
      { state := (s.game.map (·.state)).getD .idle
        roundIndex := 0
        setterOrder := buildSetterOrder s
        setterPointer := 0
        round := s.game.bind (·.round) }
    if g0.setterOrder.length = 0 then
      ({ s with game := some { g0 with state := .idle } }, [.gameStateB])
    else
      ({ s with game := some (startWaitingForPhrase g0) },
       [.sessionPlayers, .gameStateB])

/-- Handler `manager:nextRound` of `server.js` (lines 806-813) together with
`maybeGameOver` (lines 980-990): advance the pointer by one; game over —
state `over`, round cleared — exactly when the pointer has reached the
order's length, else a fresh `waiting_phrase` round. -/
def nextRoundSB (s : Session) (sock : String) : Session × List Event :=
  match s.game with
  | none => (s, [])
  | some g =>
    if ¬ isManagerOf s sock then (s, [])
    else
      let g1 := { g with setterPointer := g.setterPointer + 1 }
      if g1.setterPointer ≥ g1.setterOrder.length then
        ({ s with game := some { g1 with state := .over, round := none } }, [.gameStateB])
      else
        ({ s with game := some (startWaitingForPhrase g1) },
         [.sessionPlayers, .gameStateB])

/-- Handler `setter:submitPhrase` of `server.js` (lines 816-847): length is checked
against the fixed 3-50 window on the trimmed input, then the digits-allowing
`normalizePhrase` validates the characters. -/
def submitPhraseSB (s : Session) (sock : String) (phrase hint : String) :
    Session × List Event :=
  match s.game with
  | none => (s, [])
  | some g =>
    if g.state ≠ .waitingPhrase then (s, [])
    else match g.round with
    | none => (s, [])
    | some r =>
      if r.setterId ≠ sock then (s, [])
      else
        let rawInput := jsTrimStr phrase
        if rawInput.length < 3 ∨ rawInput.length > 50 then
          (s, [.errPhrase sock "Phrase must be 3–50 characters."])
        else match normalizePhraseD rawInput with
        | none =>
          (s, [.errPhrase sock "Only letters, numbers, spaces, apostrophes, dashes, and periods are allowed."])
        | some norm =>
          let r2 : Round :=
            { r with
              raw := norm
              hint := hint.take 120
              hintShown := false
              guessedLetters := []
              masked := buildMasked norm []
              guesserOrder := (s.players.filter (fun p => p.id ≠ r.setterId)).map (·.id)
              turnIndex := 0 }
          ({ s with game := some { g with state := .active, round := some r2 } },
           [.gameStateB, .setterOk sock])

/-! ## Session builders and state predicates used by the theorems -/

/-- A session whose game is in the `active` state with round `r`. -/
def mkActive (atv : Option String) (ps : List Player) (st : Settings)
    (ri : Int) (so : List String) (sp : Nat) (r : Round) : Session :=
  ⟨atv, ps, st, some ⟨.active, ri, so, sp, some r⟩⟩

/-- A session whose game is in the `waiting_phrase` state with round `r`. -/
def mkWaiting (atv : Option String) (ps : List Player) (st : Settings)
    (ri : Int) (so : List String) (sp : Nat) (r : Round) : Session :=
  ⟨atv, ps, st, some ⟨.waitingPhrase, ri, so, sp, some r⟩⟩

/-- Overwrite only the secret `raw` field of the current round. -/
def setRoundRaw (s : Session) (x : String) : Session :=
  { s with game := s.game.map (fun g =>
      { g with round := g.round.map (fun r => { r with raw := x }) }) }

/-- The masking invariant: while the round is unresolved (waiting for a
phrase or actively guessed), `raw` is canonical (no lowercase letters) and
`masked` is exactly the projection of `raw` through the mask for the
guessed-letter set. -/
def maskedInv (s : Session) : Prop :=
  ∀ g r, s.game = some g → g.round = some r →
    (g.state = .waitingPhrase ∨ g.state = .active) →
    (∀ c ∈ r.raw.toList, isLowerAlpha c = false) ∧
    r.masked = buildMasked1 r.raw r.guessedLetters

/-! ## Concrete fixtures for witnesses and counterexamples -/

def cPs2 : List Player := [⟨"P1", "Alice", true, 0⟩, ⟨"P2", "Bob", false, 0⟩]

/-- An active round of `"AB"` set by `P1`, guessed by `P2`, five wrong
guesses already made, hint never shown. -/
def cRoundActive : Round where
  setterId := "P1"
  raw := "AB"
  masked := "__"
  hint := "letters"
  hintShown := false
  guessedLetters := []
  wrongCount := 5
  guesserOrder := ["P2"]
  turnIndex := 0
  winnerId := none

def cActive : Session :=
  mkActive (some "ATV") cPs2 defaultSettings 0 ["P1", "P2"] 0 cRoundActive

/-- A round still waiting for `P1`'s phrase. -/
def cRoundWait : Round where
  setterId := "P1"
  raw := ""
  masked := ""
  hint := ""
  hintShown := false
  guessedLetters := []
  wrongCount := 0
  guesserOrder := []
  turnIndex := 0
  winnerId := none

def cWait : Session :=
  mkWaiting (some "ATV") cPs2 defaultSettings 0 ["P1", "P2"] 0 cRoundWait

/-- A session whose players have all left while the ATV stayed connected. -/
def cEmpty : Session := ⟨some "ATV", [], defaultSettings, none⟩

/-- Ten players, the first being the manager. -/
def cPs10 : List Player :=
  [⟨"Q0", "N0", true, 0⟩, ⟨"Q1", "N1", false, 0⟩, ⟨"Q2", "N2", false, 0⟩,
   ⟨"Q3", "N3", false, 0⟩, ⟨"Q4", "N4", false, 0⟩, ⟨"Q5", "N5", false, 0⟩,
   ⟨"Q6", "N6", false, 0⟩, ⟨"Q7", "N7", false, 0⟩, ⟨"Q8", "N8", false, 0⟩,
   ⟨"Q9", "N9", false, 0⟩]

def cFull : Session := ⟨some "ATV", cPs10, defaultSettings, none⟩

/-! ## Character-level lemmas -/

theorem toNat_ofNat_valid {n : Nat} (h : n.isValidChar) :
    (Char.ofNat n).toNat = n := by
  simp only [Char.ofNat, h, dite_true, Char.ofNatAux, Char.toNat, UInt32.toNat]
  simp

theorem upChar_toNat (c : Char) :
    (upChar c).toNat = if 97 ≤ c.toNat ∧ c.toNat ≤ 122 then c.toNat - 32 else c.toNat := by
  unfold upChar Char.toUpper
  split
  · next h =>
    rw [if_pos h]
    have hv : (c.toNat - 32).isValidChar := Or.inl (by
      have := c.val.toNat_lt_size
      simp only [Char.toNat] at *
      omega)
    exact toNat_ofNat_valid hv
  · next h => rw [if_neg h]

theorem isLowerAlpha_upChar (c : Char) : isLowerAlpha (upChar c) = false := by
  simp only [isLowerAlpha, upChar_toNat]
  split <;> (simp only [Bool.and_eq_false_iff, decide_eq_false_iff_not]; omega)

theorem upChar_of_not_lower (c : Char) (h : isLowerAlpha c = false) : upChar c = c := by
  unfold upChar Char.toUpper
  simp only [isLowerAlpha, Bool.and_eq_false_iff, decide_eq_false_iff_not] at h
  rw [if_neg (by omega)]

theorem upChar_of_upper (c : Char) (h : isUpperAlpha c = true) : upChar c = c := by
  apply upChar_of_not_lower
  simp only [isUpperAlpha, Bool.and_eq_true, decide_eq_true_eq] at h
  simp only [isLowerAlpha, Bool.and_eq_false_iff, decide_eq_false_iff_not]
  omega

theorem mem_fullAlphabet_of_upper {c : Char} (h : isUpperAlpha c = true) :
    c ∈ fullAlphabet := by
  simp only [isUpperAlpha, Bool.and_eq_true, decide_eq_true_eq] at h
  have hrw : c = Char.ofNat c.toNat := (Char.ofNat_toNat c).symm
  rw [hrw]
  obtain ⟨h1, h2⟩ := h
  generalize c.toNat = n at h1 h2
  interval_cases n <;> decide

theorem upper_of_mem_fullAlphabet {c : Char} (h : c ∈ fullAlphabet) :
    isUpperAlpha c = true := by
  fin_cases h <;> decide

theorem contains_fullAlphabet (c : Char) :
    fullAlphabet.contains c = isUpperAlpha c := by
  by_cases h : isUpperAlpha c = true
  · rw [h, List.contains, List.elem_iff.mpr (mem_fullAlphabet_of_upper h)]
  · have h2 : isUpperAlpha c = false := by revert h; cases isUpperAlpha c <;> simp
    rw [h2]
    rw [List.contains, Bool.eq_false_iff]
    intro hc
    exact absurd (upper_of_mem_fullAlphabet (List.elem_iff.mp hc)) (by simp [h2])

theorem maskCharV1_eq_maskCharSB (g : List Char) (c : Char)
    (h : isLowerAlpha c = false) : maskCharV1 g c = maskCharSB g c := by
  simp [maskCharV1, maskCharSB, isAnyAlpha, h, upChar_of_not_lower c h]

theorem maskCharSB_full (c : Char) : maskCharSB fullAlphabet c = c := by
  simp only [maskCharSB, contains_fullAlphabet]
  split <;> simp_all

/-- C5: `buildMasked` maps each character of `raw` independently — a letter
is revealed exactly when its uppercase form has been guessed, every other
character is copied verbatim; consequently masking with the full alphabet
is the identity and masking with the empty set turns every letter into
`'_'`.  Both variants (`server.js` and `part_001`) agree on canonical
(uppercase-normalised) raw phrases, the only phrases the program stores. -/
theorem buildMasked_charwise (raw : String) (g : List Char)
    (hraw : ∀ c ∈ raw.toList, isLowerAlpha c = false) :
    buildMasked raw g = ⟨raw.toList.map (fun c =>
      if isUpperAlpha c then (if g.contains (upChar c) then c else '_') else c)⟩ ∧
    buildMasked1 raw g = buildMasked raw g ∧
    buildMasked raw fullAlphabet = raw ∧
    buildMasked1 raw fullAlphabet = raw ∧
    buildMasked raw [] = ⟨raw.toList.map (fun c => if isUpperAlpha c then '_' else c)⟩ ∧
    buildMasked1 raw [] = ⟨raw.toList.map (fun c => if isUpperAlpha c then '_' else c)⟩ := by
  obtain ⟨l⟩ := raw
  have hraw2 : ∀ c ∈ l, isLowerAlpha c = false := hraw
  have hV1eq : ∀ g : List Char, buildMasked1 ⟨l⟩ g = buildMasked ⟨l⟩ g := by
    intro g
    show String.mk (l.map (maskCharV1 g)) = String.mk (l.map (maskCharSB g))
    exact congrArg String.mk
      (List.map_congr_left fun c hc => maskCharV1_eq_maskCharSB g c (hraw2 c hc))
  have hfull : buildMasked ⟨l⟩ fullAlphabet = ⟨l⟩ := by
    show String.mk (l.map (maskCharSB fullAlphabet)) = String.mk l
    have h1 : l.map (maskCharSB fullAlphabet) = l.map id :=
      List.map_congr_left fun c _ => maskCharSB_full c
    rw [h1, List.map_id]
  have hnil : buildMasked ⟨l⟩ [] =
      ⟨l.map (fun c => if isUpperAlpha c then '_' else c)⟩ := by
    show String.mk (l.map (maskCharSB [])) = _
    refine congrArg String.mk (List.map_congr_left fun c _ => ?_)
    simp [maskCharSB]
  refine ⟨?_, hV1eq g, hfull, by rw [hV1eq, hfull], hnil, by rw [hV1eq]; exact hnil⟩
  show String.mk (l.map (maskCharSB g)) = _
  refine congrArg String.mk (List.map_congr_left fun c hc => ?_)
  simp [maskCharSB, upChar_of_not_lower c (hraw2 c hc)]

/-- Witness for C5 at the spec's Scenario A phrase. -/
theorem buildMasked_charwise_witness :
    buildMasked1 "HELLO WORLD" ['O'] = buildMasked "HELLO WORLD" ['O'] ∧
    buildMasked "HELLO WORLD" fullAlphabet = "HELLO WORLD" ∧
    buildMasked "HELLO WORLD" [] = "_____ _____" := by
  refine ⟨(buildMasked_charwise "HELLO WORLD" ['O'] (by decide)).2.1,
          (buildMasked_charwise "HELLO WORLD" ['O'] (by decide)).2.2.1, ?_⟩
  have h := (buildMasked_charwise "HELLO WORLD" ['O'] (by decide)).2.2.2.2.1
  rw [h]
  decide

/-! ## Structure of the normalisation pipeline (for C9) -/

theorem head?_dropWhile_false (p : Char → Bool) (l : List Char) (d : Char)
    (h : (l.dropWhile p).head? = some d) : p d = false := by
  induction l with
  | nil => simp [List.dropWhile] at h
  | cons a rest ih =>
    rw [List.dropWhile_cons] at h
    by_cases hp : p a = true
    · exact ih (by simpa [hp] using h)
    · have hp2 : p a = false := by revert hp; cases p a <;> simp
      simp [hp2] at h
      exact h ▸ hp2

theorem noDoubleWs_cons (a : Char) (l : List Char)
    (h1 : ∀ x, l.head? = some x → (jsWs a && jsWs x) = false)
    (h2 : noDoubleWs l = true) : noDoubleWs (a :: l) = true := by
  cases l with
  | nil => rfl
  | cons b t =>
    show (!(jsWs a && jsWs b) && noDoubleWs (b :: t)) = true
    rw [h1 b rfl, h2]
    rfl

theorem head?_collapseAux_true (l : List Char) (d : Char)
    (h : (collapseAux l true).head? = some d) : jsWs d = false := by
  induction l with
  | nil => simp [collapseAux] at h
  | cons a rest ih =>
    rw [collapseAux] at h
    by_cases ha : jsWs a = true
    · simp only [ha, if_true] at h
      exact ih h
    · have ha2 : jsWs a = false := by revert ha; cases jsWs a <;> simp
      simp [ha2] at h
      exact h ▸ ha2

theorem noDoubleWs_collapseAux (l : List Char) (prev : Bool) :
    noDoubleWs (collapseAux l prev) = true := by
  induction l generalizing prev with
  | nil => rfl
  | cons a rest ih =>
    rw [collapseAux]
    by_cases ha : jsWs a = true
    · simp only [ha, if_true]
      cases prev with
      | true => exact ih true
      | false =>
        simp only [Bool.false_eq_true, if_false]
        refine noDoubleWs_cons ' ' _ (fun x hx => ?_) (ih true)
        rw [head?_collapseAux_true rest x hx, Bool.and_false]
    · have ha2 : jsWs a = false := by revert ha; cases jsWs a <;> simp
      simp only [ha2, Bool.false_eq_true, if_false]
      refine noDoubleWs_cons a _ (fun x _ => ?_) (ih false)
      rw [ha2, Bool.false_and]

theorem noDoubleWs_collapseWs (l : List Char) : noDoubleWs (collapseWs l) = true :=
  noDoubleWs_collapseAux l false

theorem noDoubleWs_tail (a : Char) (l : List Char)
    (h : noDoubleWs (a :: l) = true) : noDoubleWs l = true := by
  cases l with
  | nil => rfl
  | cons b t => exact (Bool.and_eq_true_iff.mp h).2

theorem noDoubleWs_dropWhile (p : Char → Bool) (l : List Char)
    (h : noDoubleWs l = true) : noDoubleWs (l.dropWhile p) = true := by
  induction l with
  | nil => exact h
  | cons a rest ih =>
    rw [List.dropWhile_cons]
    split
    · exact ih (noDoubleWs_tail a rest h)
    · exact h

theorem head?_trimRight (l : List Char) (d : Char)
    (h : (trimRight l).head? = some d) : l.head? = some d := by
  cases l with
  | nil => simp [trimRight] at h
  | cons a rest =>
    rw [trimRight] at h
    split at h
    · simp at h
    · simp at h ⊢
      exact h

theorem noDoubleWs_trimRight (l : List Char) (h : noDoubleWs l = true) :
    noDoubleWs (trimRight l) = true := by
  induction l with
  | nil => rfl
  | cons a rest ih =>
    rw [trimRight]
    split
    · rfl
    · cases hx : trimRight rest with
      | nil => rfl
      | cons x t =>
        rw [noDoubleWs]
        have hmem : rest.head? = some x := head?_trimRight rest x (by rw [hx]; rfl)
        cases rest with
        | nil => simp at hmem
        | cons b t2 =>
          simp at hmem
          subst hmem
          have hpair := (Bool.and_eq_true_iff.mp h).1
          have htail := (Bool.and_eq_true_iff.mp h).2
          rw [← hx]
          simp only [hx]
          exact Bool.and_eq_true_iff.mpr ⟨hpair, hx ▸ ih htail⟩

theorem getLast?_trimRight (l : List Char) (d : Char)
    (h : (trimRight l).getLast? = some d) : jsWs d = false := by
  induction l with
  | nil => simp [trimRight] at h
  | cons a rest ih =>
    rw [trimRight] at h
    split at h
    · simp at h
    · next hcond =>
      cases hx : trimRight rest with
      | nil =>
        rw [hx] at h
        simp at h
        rw [hx] at hcond
        simp at hcond
        rw [← h]
        exact hcond
      | cons x t =>
        rw [hx, List.getLast?_cons_cons] at h
        exact ih (hx ▸ h)

theorem mem_trimRight (l : List Char) (d : Char) (h : d ∈ trimRight l) : d ∈ l := by
  induction l with
  | nil => simp [trimRight] at h
  | cons a rest ih =>
    rw [trimRight] at h
    split at h
    · cases h
    · rcases List.mem_cons.mp h with h1 | h2
      · exact h1 ▸ List.mem_cons_self a rest
      · exact List.mem_cons_of_mem a (ih h2)

theorem mem_collapseAux (l : List Char) (prev : Bool) (d : Char)
    (h : d ∈ collapseAux l prev) : d = ' ' ∨ d ∈ l := by
  induction l generalizing prev with
  | nil => simp [collapseAux] at h
  | cons c rest ih =>
    rw [collapseAux] at h
    by_cases hc : jsWs c = true
    · simp only [hc, if_true] at h
      cases prev with
      | true =>
        rcases ih true h with h3 | h4
        · exact Or.inl h3
        · exact Or.inr (List.mem_cons_of_mem c h4)
      | false =>
        simp only [Bool.false_eq_true, if_false] at h
        rcases List.mem_cons.mp h with h1 | h2
        · exact Or.inl h1
        · rcases ih true h2 with h3 | h4
          · exact Or.inl h3
          · exact Or.inr (List.mem_cons_of_mem c h4)
    · have hc2 : jsWs c = false := by revert hc; cases jsWs c <;> simp
      simp only [hc2, Bool.false_eq_true, if_false] at h
      rcases List.mem_cons.mp h with h1 | h2
      · exact Or.inr (h1 ▸ List.mem_cons_self c rest)
      · rcases ih false h2 with h3 | h4
        · exact Or.inl h3
        · exact Or.inr (List.mem_cons_of_mem c h4)

theorem mem_canonList (l : List Char) (d : Char) (h : d ∈ canonList l) :
    d = ' ' ∨ d ∈ l.map upChar := by
  unfold canonList jsTrim collapseWs at h
  have h1 := mem_trimRight _ d h
  have h2 := List.dropWhile_subset jsWs h1
  exact mem_collapseAux _ false d h2

theorem not_lower_canonList (l : List Char) (d : Char) (h : d ∈ canonList l) :
    isLowerAlpha d = false := by
  rcases mem_canonList l d h with h1 | h2
  · rw [h1]; rfl
  · obtain ⟨e, _, he⟩ := List.mem_map.mp h2
    rw [← he]
    exact isLowerAlpha_upChar e

/-- C9: `normalizePhrase` uppercases, collapses internal whitespace runs to
single spaces, trims both ends, and returns the canonical string exactly
when every character of it lies in the allow-list, returning `none`
(never raising) otherwise; the stable-baseline variant behaves the same
with digits additionally allowed. -/
theorem normalizePhrase_spec (input : String) :
    (∀ out, normalizePhrase input = some out →
       out = canonStr input ∧
       out.toList.all (fun c => allowedNP.contains c) = true ∧
       (∀ c ∈ out.toList, isLowerAlpha c = false) ∧
       noDoubleWs out.toList = true ∧
       (∀ c, out.toList.head? = some c → jsWs c = false) ∧
       (∀ c, out.toList.getLast? = some c → jsWs c = false)) ∧
    (normalizePhrase input = none ↔
       ∃ c ∈ (canonStr input).toList, allowedNP.contains c = false) ∧
    (∀ out, normalizePhraseD input = some out →
       out = canonStr input ∧
       out.toList.all (fun c => allowedNPD.contains c) = true) := by
  refine ⟨?_, ?_, ?_⟩
  · intro out hout
    simp only [normalizePhrase] at hout
    split at hout
    · next hall =>
      cases hout
      refine ⟨rfl, hall, ?_, ?_, ?_, ?_⟩
      · intro c hc
        exact not_lower_canonList input.toList c hc
      · exact noDoubleWs_trimRight _ (noDoubleWs_dropWhile jsWs _ (noDoubleWs_collapseWs _))
      · intro c hc
        exact head?_dropWhile_false jsWs _ c (head?_trimRight _ c hc)
      · intro c hc
        exact getLast?_trimRight _ c hc
    · cases hout
  · simp only [normalizePhrase]
    split
    · next hall =>
      simp only [reduceCtorEq, false_iff]
      rw [List.all_eq_true] at hall
      rintro ⟨c, hc, hcf⟩
      rw [hall c hc] at hcf
      cases hcf
    · next hall =>
      simp only [true_iff]
      have h2 : ¬ ∀ c ∈ (canonStr input).toList, allowedNP.contains c = true := by
        rw [← List.all_eq_true]; exact hall
      push_neg at h2
      obtain ⟨c, hc, hcf⟩ := h2
      exact ⟨c, hc, by revert hcf; cases allowedNP.contains c <;> simp⟩
  · intro out hout
    simp only [normalizePhraseD] at hout
    split at hout
    · next hall => cases hout; exact ⟨rfl, hall⟩
    · cases hout

/-- Witness for C9: the canonicalisation at a messy concrete input. -/
theorem normalizePhrase_spec_witness :
    "HELLO WORLD" = canonStr "  hello   world  " ∧
    noDoubleWs ("HELLO WORLD").toList = true := by
  have h := (normalizePhrase_spec "  hello   world  ").1 "HELLO WORLD" (by decide)
  exact ⟨h.1, h.2.2.2.1⟩

/-- C10: `player:join` enforces the 10-player capacity — at 10 or more
players the join is rejected with `error:join` to the requester only and
the session is untouched, so the players list never grows past 10. -/
theorem join_capacity (s : Session) (sock name : String) :
    (10 ≤ s.players.length →
      joinSB s sock name = (s, [Event.errJoin sock "Game is full (max 10 players)."])) ∧
    (joinSB s sock name).1.players.length ≤ max s.players.length 10 := by
  constructor
  · intro h
    simp only [joinSB]
    rw [if_pos (by omega)]
  · simp only [joinSB]
    split
    · next h => simp
    · next h =>
      simp only [List.length_append, List.length_cons, List.length_nil]
      omega

/-- Witness for C10: an eleventh join bounces off a full session. -/
theorem join_capacity_witness :
    joinSB cFull "S9" "Zed" = (cFull, [Event.errJoin "S9" "Game is full (max 10 players)."]) :=
  (join_capacity cFull "S9" "Zed").1 (by decide)

/-- C8: `setter:showHint` is idempotent and one-way — with the setter
calling in an active round whose hint is unshown, the call flips
`hintShown` and broadcasts the hint text once; if the hint is already
shown the call leaves the session untouched; and a repeated call is always
a complete no-op (same state, no second `game:hint` broadcast). -/
theorem showHint_props (s : Session) (sock : String) :
    (∀ g r, s.game = some g → g.state = .active → g.round = some r →
       sock = r.setterId → r.hintShown = false →
       showHint s sock =
         ({ s with game := some { g with round := some { r with hintShown := true } } },
          [.gameHint r.hint, .gameStateB])) ∧
    (∀ g r, s.game = some g → g.round = some r → r.hintShown = true →
       (showHint s sock).1 = s) ∧
    (showHint (showHint s sock).1 sock = ((showHint s sock).1, [])) := by
  refine ⟨?_, ?_, ?_⟩
  · intro g r hg hst hr hsetter hshown
    simp [showHint, hg, hr, hst, hsetter, hshown]
  · intro g r hg hr hshown
    simp [showHint, hg, hr, hshown]
  · cases hg : s.game with
    | none => simp [showHint, hg]
    | some g =>
      by_cases hst : g.state = .active
      · cases hr : g.round with
        | none => simp [showHint, hg, hr, hst]
        | some r =>
          by_cases hset : sock = r.setterId
          · by_cases hsh : r.hintShown = true
            · simp [showHint, hg, hr, hst, hset, hsh]
            · simp [showHint, hg, hr, hst, hset, hsh]
          · simp [showHint, hg, hr, hst, hset]
      · simp [showHint, hg, hst]

/-- Witness for C8: the hint broadcast fires exactly once on the fixture. -/
theorem showHint_props_witness :
    (showHint cActive "P1").2 = [Event.gameHint "letters", Event.gameStateB] ∧
    (showHint (showHint cActive "P1").1 "P1").2 = [] := by
  constructor
  · have h := (showHint_props cActive "P1").1
      ⟨.active, 0, ["P1", "P2"], 0, some cRoundActive⟩ cRoundActive rfl rfl rfl rfl rfl
    rw [h]
    rfl
  · have h := (showHint_props cActive "P1").2.2
    rw [h]

/-! ## Setter rotation (for C2) -/

theorem length_flatten_replicate (n : Nat) (l : List String) :
    (List.replicate n l).flatten.length = n * l.length := by
  induction n with
  | zero => simp
  | succ k ih =>
    rw [List.replicate_succ, List.flatten_cons, List.length_append, ih, Nat.succ_mul]
    omega

theorem buildSetterOrder_length (s : Session) (hr : 1 ≤ s.settings.rounds) :
    (buildSetterOrder s).length = s.players.length * s.settings.rounds := by
  unfold buildSetterOrder
  rw [length_flatten_replicate, List.length_map, Nat.max_eq_right hr, Nat.mul_comm]

/-- C2: at game start the setter order is the join-order player list
repeated once per configured lap, so its length is `players × rounds` and
the pointer starts at `0`; each `manager:nextRound` advances the pointer by
exactly one, and the game becomes `over` with the round cleared exactly
when the pointer reaches the order's length. -/
theorem setterOrder_game_over (s : Session) (sock : String)
    (hm : isManagerOf s sock = true) (h2 : 2 ≤ s.players.length)
    (hr : 1 ≤ s.settings.rounds) :
    (∃ g, (startGameSB s sock).1.game = some g ∧
       g.setterOrder.length = s.players.length * s.settings.rounds ∧
       g.setterPointer = 0 ∧ g.state = .waitingPhrase) ∧
    (∀ g, s.game = some g →
       ∃ g2, (nextRoundSB s sock).1.game = some g2 ∧
         g2.setterPointer = g.setterPointer + 1 ∧
         g2.setterOrder = g.setterOrder ∧
         ((g2.state = .over ∧ g2.round = none) ↔
            g.setterOrder.length ≤ g.setterPointer + 1) ∧
         (g.setterPointer < g.setterOrder.length →
            (g2.state = .over ↔ g.setterPointer + 1 = g.setterOrder.length))) := by
  have hlen := buildSetterOrder_length s hr
  constructor
  · simp only [startGameSB, hm]
    have hpos : 0 < (buildSetterOrder s).length := by
      rw [hlen]
      exact Nat.mul_pos (by omega) (by omega)
    rw [if_neg (by simp), if_neg (by omega), if_neg (Nat.pos_iff_ne_zero.mp hpos)]
    exact ⟨_, rfl, hlen, rfl, rfl⟩
  · intro g hg
    simp only [nextRoundSB, hg, hm]
    rw [if_neg (by simp)]
    by_cases hover : g.setterOrder.length ≤ g.setterPointer + 1
    · rw [if_pos hover]
      refine ⟨_, rfl, rfl, rfl, iff_of_true ⟨rfl, rfl⟩ hover, ?_⟩
      intro hlt
      exact iff_of_true rfl (by omega)
    · rw [if_neg hover]
      refine ⟨_, rfl, rfl, rfl, ?_, ?_⟩
      · exact iff_of_false (by rintro ⟨h1, -⟩; cases h1) hover
      · intro hlt
        exact iff_of_false (by rintro h1; cases h1) (by omega)

/-- Witness for C2 on the two-player fixture with three configured laps. -/
theorem setterOrder_game_over_witness :
    (∃ g, (startGameSB cActive "P1").1.game = some g ∧
       g.setterOrder.length = cActive.players.length * cActive.settings.rounds ∧
       g.setterPointer = 0 ∧ g.state = .waitingPhrase) ∧
    (∃ g2, (nextRoundSB cActive "P1").1.game = some g2 ∧
       g2.setterPointer = 0 + 1) := by
  have h := setterOrder_game_over cActive "P1" (by decide) (by decide) (by decide)
  refine ⟨h.1, ?_⟩
  obtain ⟨g2, hcg, hp, -⟩ :=
    h.2 ⟨.active, 0, ["P1", "P2"], 0, some cRoundActive⟩ rfl
  exact ⟨g2, hcg, hp⟩

/-! ## Counterexamples and code-bug evaluations -/

/-- C1 counterexample: on the fixture `cActive` (hint never shown, five
wrong guesses made, limit 6) a sixth wrong guess forfeits the round — the
setter wins, but is credited 1 point, not the 2 points the claim's
symmetric hint-aware scoring prescribes (`finishRoundWithSetterWin`
computes `hintShown ? 2 : 1`, the opposite of the guesser's award). -/
theorem forfeit_scoring_counterexample :
    cRoundActive.hintShown = false ∧
    (guessLetter1 cActive "P2" "z").1.game.map (·.state) = some .won ∧
    ((guessLetter1 cActive "P2" "z").1.game.bind (·.round)).map (·.winnerId) =
      some (some "P1") ∧
    (guessLetter1 cActive "P2" "z").1.players.map (·.score) = [1, 0] ∧
    ¬ (guessLetter1 cActive "P2" "z").1.players.map (·.score) = [2, 0] := by
  decide

/-- C3: the `player:rejoin` fallback appends the fresh player with
`isManager` hard-coded to `false`, so rejoining into a session whose
players have all left yields a non-empty players list with no manager —
while `player:join` on the same session would have made the first phone the
manager.  This violates the exactly-one-manager invariant. -/
theorem rejoin_no_manager_bug :
    (rejoinSB cEmpty "S1" "ALICE").1.players ≠ [] ∧
    (rejoinSB cEmpty "S1" "ALICE").1.players.countP (·.isManager) = 0 ∧
    (joinSB cEmpty "S1" "ALICE").1.players.countP (·.isManager) = 1 := by
  decide

/-- C4 counterexample: `part_001`'s `manager:setSettings` has no idle lock —
the manager changes `rounds` while the game state is `active`. -/
theorem setSettings_lock_counterexample :
    cActive.game.map (·.state) = some .active ∧
    cActive.settings.rounds = 3 ∧
    (setSettings1 cActive "P1" { rounds := some 5 }).1.settings.rounds = 5 := by
  decide

/-- C6 counterexample: `part_001` accepts the letterless phrase `"..."`
(full-string length check), after which the broadcast `masked` equals the
full raw phrase while the round is still `active`, not `won`. -/
theorem masked_equals_raw_before_won :
    (submitPhrase1 cWait "P1" "..." "hm").1.game.map (·.state) = some .active ∧
    (gameStateView1 (submitPhrase1 cWait "P1" "..." "hm").1).masked = "..." ∧
    ((submitPhrase1 cWait "P1" "..." "hm").1.game.bind (·.round)).map (·.raw) =
      some "..." := by
  decide

/-- C7 counterexample: `part_001`'s `setter:submitPhrase` performs no
character validation — the phrase `"@@@@"` is accepted (no `error:phrase`),
stored as `raw`, and the round becomes `active`. -/
theorem submitPhrase_accepts_invalid_chars :
    (submitPhrase1 cWait "P1" "@@@@" "hm").1.game.map (·.state) = some .active ∧
    ((submitPhrase1 cWait "P1" "@@@@" "hm").1.game.bind (·.round)).map (·.raw) =
      some "@@@@" ∧
    (submitPhrase1 cWait "P1" "@@@@" "hm").2 = [Event.gameStateB, Event.setterOk "P1"] := by
  decide

/-! ## Masking helper lemmas -/

theorem map_eq_self_mem {f : Char → Char} {l : List Char} (h : l.map f = l) :
    ∀ x ∈ l, f x = x := by
  induction l with
  | nil => intro x hx; cases hx
  | cons a t ih =>
    rw [List.map_cons] at h
    injection h with h1 h2
    intro x hx
    rcases List.mem_cons.mp hx with h3 | h4
    · exact h3 ▸ h1
    · exact ih h2 x h4

theorem buildMasked1_snoc_not_mem (raw : String) (g : List Char) (c : Char)
    (hcanon : ∀ d ∈ raw.toList, isLowerAlpha d = false)
    (hnin : raw.toList.contains c = false) :
    buildMasked1 raw (g ++ [c]) = buildMasked1 raw g := by
  refine congrArg String.mk (List.map_congr_left fun d hd => ?_)
  unfold maskCharV1
  rw [upChar_of_not_lower d (hcanon d hd)]
  have hdc : d ≠ c := by
    intro he
    rw [List.contains, List.elem_eq_mem] at hnin
    simp at hnin
    exact hnin (he ▸ hd)
  have hgc : (g ++ [c]).contains d = g.contains d := by
    simp [List.contains, List.elem_eq_mem, hdc]
  rw [hgc]

theorem buildMasked1_ne (raw : String) (g : List Char)
    (h : ∃ c ∈ raw.toList, isAnyAlpha c = true ∧ g.contains (upChar c) = false) :
    buildMasked1 raw g ≠ raw := by
  obtain ⟨c, hc, hca, hcg⟩ := h
  intro he
  have hdata : raw.toList.map (maskCharV1 g) = raw.toList := congrArg String.data he
  have hfix := map_eq_self_mem hdata c hc
  unfold maskCharV1 at hfix
  rw [hca, if_pos rfl, hcg] at hfix
  simp only [Bool.false_eq_true, if_false] at hfix
  rw [← hfix] at hca
  cases hca

/-- C1 (amended): round resolution and scoring in `part_001`.  A guesser
win — all letters revealed by a letter guess, or an exact full solve —
sets state `won`, `winnerId` to the guesser, and credits the guesser 2
points if the hint was never shown, else 1.  A setter forfeit win — wrong
limiting enabled and `wrongCount` reaching the limit after a wrong letter
or failed solve — sets state `won`, `winnerId` to the setter, reveals
`masked = raw`, and credits the setter 1 point if the hint was never
shown, else 2: the setter award is inverted relative to the guesser's, not
symmetric as claimed. -/
theorem round_scoring_amended (atv : Option String) (ps : List Player)
    (st : Settings) (ri : Int) (so : List String) (sp : Nat) (r : Round)
    (sock : String) (c : Char)
    (hturn : currentTurnPlayerId (mkActive atv ps st ri so sp r) = some sock)
    (hc : isUpperAlpha c = true)
    (hnew : r.guessedLetters.contains c = false) :
    (r.raw.toList.contains c = true →
     (buildMasked1 r.raw (r.guessedLetters ++ [c])).toList.contains '_' = false →
     guessLetter1 (mkActive atv ps st ri so sp r) sock ⟨[c]⟩ =
       (⟨atv, creditFirst ps sock (if r.hintShown then 1 else 2), st,
         some ⟨.won, ri, so, sp, some { r with
           guessedLetters := r.guessedLetters ++ [c]
           masked := buildMasked1 r.raw (r.guessedLetters ++ [c])
           winnerId := some sock }⟩⟩, [.gameStateB])) ∧
    (r.raw.toList.contains c = false →
     st.unlimitedWrong = false →
     st.wrongLimit ≤ r.wrongCount + 1 →
     guessLetter1 (mkActive atv ps st ri so sp r) sock ⟨[c]⟩ =
       (⟨atv, creditFirst ps r.setterId (if r.hintShown then 2 else 1), st,
         some ⟨.won, ri, so, sp, some { r with
           guessedLetters := r.guessedLetters ++ [c]
           wrongCount := r.wrongCount + 1
           masked := r.raw
           winnerId := some r.setterId }⟩⟩, [.gameStateB])) ∧
    (∀ guess, normalizePhrase guess = some r.raw →
     solve1 (mkActive atv ps st ri so sp r) sock guess =
       (⟨atv, creditFirst ps sock (if r.hintShown then 1 else 2), st,
         some ⟨.won, ri, so, sp, some { r with
           winnerId := some sock
           masked := r.raw }⟩⟩, [.gameStateB])) ∧
    (∀ guess ng, normalizePhrase guess = some ng → ng ≠ r.raw →
     st.unlimitedWrong = false →
     st.wrongLimit ≤ r.wrongCount + 1 →
     solve1 (mkActive atv ps st ri so sp r) sock guess =
       (⟨atv, creditFirst ps r.setterId (if r.hintShown then 2 else 1), st,
         some ⟨.won, ri, so, sp, some { r with
           wrongCount := r.wrongCount + 1
           masked := r.raw
           winnerId := some r.setterId }⟩⟩, [.gameStateB])) := by
  simp only [mkActive] at hturn
  have hnew2 : c ∉ r.guessedLetters := by
    simpa [List.contains, List.elem_eq_mem] using hnew
  refine ⟨?_, ?_, ?_, ?_⟩
  · intro hin hdone
    have hin2 : c ∈ r.raw.data := by
      simpa [List.contains, List.elem_eq_mem, String.toList] using hin
    have hdone2 : '_' ∉ (buildMasked1 r.raw (r.guessedLetters ++ [c])).data := by
      simpa [List.contains, List.elem_eq_mem, String.toList] using hdone
    simp [guessLetter1, mkActive, hturn, hc, upChar_of_upper c hc, hnew2, hin2, hdone2,
      String.toList]
  · intro hout hul hlim
    have hout2 : c ∉ r.raw.data := by
      simpa [List.contains, List.elem_eq_mem, String.toList] using hout
    simp [guessLetter1, mkActive, hturn, hc, upChar_of_upper c hc, hnew2, hout2,
      String.toList, finishRoundWithSetterWin, hul, ge_iff_le, hlim]
  · intro guess hg
    simp [solve1, mkActive, hturn, hg]
  · intro guess ng hg hne hul hlim
    simp [solve1, mkActive, hturn, hg, hne, finishRoundWithSetterWin, hul,
      ge_iff_le, hlim, advanceTurnR]

/-- Witness for C1 (amended): the forfeit on the fixture credits the setter
exactly one point (hint never shown). -/
theorem round_scoring_amended_witness :
    guessLetter1 (mkActive (some "ATV") cPs2 defaultSettings 0 ["P1", "P2"] 0 cRoundActive)
        "P2" ⟨['Z']⟩ =
      (⟨some "ATV", creditFirst cPs2 "P1" (if cRoundActive.hintShown then 2 else 1),
        defaultSettings,
        some ⟨.won, 0, ["P1", "P2"], 0, some { cRoundActive with
          guessedLetters := cRoundActive.guessedLetters ++ ['Z']
          wrongCount := cRoundActive.wrongCount + 1
          masked := cRoundActive.raw
          winnerId := some cRoundActive.setterId }⟩⟩, [.gameStateB]) :=
  (round_scoring_amended (some "ATV") cPs2 defaultSettings 0 ["P1", "P2"] 0 cRoundActive
    "P2" 'Z' (by decide) (by decide) (by decide)).2.1 (by decide) (by decide) (by decide)

/-! ## Settings update lemmas (for C4) -/

theorem applyCoreSettings_fields (st0 : Settings) (p : SettingsPayload) :
    ((applyCoreSettings st0 p).rounds = st0.rounds ∨
      ∃ k, p.rounds = some k ∧ 1 ≤ k ∧ k ≤ 20 ∧ (applyCoreSettings st0 p).rounds = k.toNat) ∧
    ((applyCoreSettings st0 p).minLen = st0.minLen ∨
      ∃ k, p.minLen = some k ∧ 1 ≤ k ∧ k ≤ 40 ∧ (applyCoreSettings st0 p).minLen = k.toNat) ∧
    ((applyCoreSettings st0 p).maxLen = st0.maxLen ∨
      ∃ k, p.maxLen = some k ∧ ((applyCoreSettings st0 p).minLen : Int) ≤ k ∧ k ≤ 60 ∧
        (applyCoreSettings st0 p).maxLen = k.toNat) ∧
    (applyCoreSettings st0 p).wrongLimit = st0.wrongLimit ∧
    (applyCoreSettings st0 p).unlimitedWrong = st0.unlimitedWrong := by
  unfold applyCoreSettings
  rcases p with ⟨pr, pmin, pmax, pwl, puw⟩
  rcases pr with - | k1 <;> rcases pmin with - | k2 <;> rcases pmax with - | k3 <;>
    (try simp_all) <;> (try split_ifs) <;> (try simp_all)

theorem applyWrongSettings_fields (st3 : Settings) (p : SettingsPayload) :
    (applyWrongSettings st3 p).rounds = st3.rounds ∧
    (applyWrongSettings st3 p).minLen = st3.minLen ∧
    (applyWrongSettings st3 p).maxLen = st3.maxLen ∧
    ((applyWrongSettings st3 p).wrongLimit = st3.wrongLimit ∨
      (1 ≤ (applyWrongSettings st3 p).wrongLimit ∧
       (applyWrongSettings st3 p).wrongLimit ≤ 26)) := by
  unfold applyWrongSettings
  rcases p with ⟨pr, pmin, pmax, pwl, puw⟩
  rcases puw with - | b <;> rcases pwl with - | k <;>
    (try simp_all) <;> (try split_ifs) <;> (try simp_all)

/-- C4 (amended): both `manager:setSettings` handlers mutate settings only
for the manager, with bounds-checked updates (rounds 1-20, minLen 1-40,
maxLen between the updated minLen and 60, wrongLimit clamped to 1-26); the
stable baseline of `server.js` additionally refuses every change once the
game is not idle, but `part_001` — the only variant carrying
`wrongLimit`/`unlimitedWrong` — has no such lock and mutates settings in
any game state. -/
theorem setSettings_amended (s : Session) (sock : String) (p : SettingsPayload) :
    (isManagerOf s sock = false →
      setSettingsSB s sock p = (s, []) ∧ setSettings1 s sock p = (s, [])) ∧
    (∀ g, s.game = some g → g.state ≠ .idle → setSettingsSB s sock p = (s, [])) ∧
    (∀ st2, (st2 = (setSettingsSB s sock p).1.settings ∨
             st2 = (setSettings1 s sock p).1.settings) →
      (st2.rounds = s.settings.rounds ∨
        ∃ k, p.rounds = some k ∧ 1 ≤ k ∧ k ≤ 20 ∧ st2.rounds = k.toNat) ∧
      (st2.minLen = s.settings.minLen ∨
        ∃ k, p.minLen = some k ∧ 1 ≤ k ∧ k ≤ 40 ∧ st2.minLen = k.toNat) ∧
      (st2.maxLen = s.settings.maxLen ∨
        ∃ k, p.maxLen = some k ∧ (st2.minLen : Int) ≤ k ∧ k ≤ 60 ∧ st2.maxLen = k.toNat) ∧
      (st2.wrongLimit = s.settings.wrongLimit ∨
        (1 ≤ st2.wrongLimit ∧ st2.wrongLimit ≤ 26))) := by
  have hcore := applyCoreSettings_fields s.settings p
  have hwrong := applyWrongSettings_fields (applyCoreSettings s.settings p) p
  refine ⟨?_, ?_, ?_⟩
  · intro hnm
    constructor <;> simp [setSettingsSB, setSettings1, hnm]
  · intro g hg hst
    simp [setSettingsSB, hg, hst]
  · intro st2 hst2
    have hTriv : ∀ st3 : Settings, st3 = s.settings →
        (st3.rounds = s.settings.rounds ∨
          ∃ k, p.rounds = some k ∧ 1 ≤ k ∧ k ≤ 20 ∧ st3.rounds = k.toNat) ∧
        (st3.minLen = s.settings.minLen ∨
          ∃ k, p.minLen = some k ∧ 1 ≤ k ∧ k ≤ 40 ∧ st3.minLen = k.toNat) ∧
        (st3.maxLen = s.settings.maxLen ∨
          ∃ k, p.maxLen = some k ∧ (st3.minLen : Int) ≤ k ∧ k ≤ 60 ∧ st3.maxLen = k.toNat) ∧
        (st3.wrongLimit = s.settings.wrongLimit ∨
          (1 ≤ st3.wrongLimit ∧ st3.wrongLimit ≤ 26)) := by
      rintro st3 rfl
      exact ⟨Or.inl rfl, Or.inl rfl, Or.inl rfl, Or.inl rfl⟩
    rcases hst2 with hA | hB
    · by_cases hm : isManagerOf s sock = true
      · by_cases hidle : (s.game.map (·.state)).getD .idle = .idle
        · have hEq : (setSettingsSB s sock p).1.settings = applyCoreSettings s.settings p := by
            simp [setSettingsSB, hm, hidle]
          rw [hA, hEq]
          exact ⟨hcore.1, hcore.2.1, hcore.2.2.1, Or.inl hcore.2.2.2.1⟩
        · have hEq : (setSettingsSB s sock p).1.settings = s.settings := by
            simp [setSettingsSB, hm, hidle]
          exact hTriv st2 (hA.trans hEq)
      · have hEq : (setSettingsSB s sock p).1.settings = s.settings := by
          simp only [setSettingsSB]
          rw [if_pos (by simpa using hm)]
        exact hTriv st2 (hA.trans hEq)
    · by_cases hm : isManagerOf s sock = true
      · have hEq : (setSettings1 s sock p).1.settings =
            applyWrongSettings (applyCoreSettings s.settings p) p := by
          simp [setSettings1, hm]
        rw [hB, hEq]
        refine ⟨hwrong.1 ▸ hcore.1, hwrong.2.1 ▸ hcore.2.1, ?_, ?_⟩
        · rcases hcore.2.2.1 with h1 | ⟨k, hk1, hk2, hk3, hk4⟩
          · exact Or.inl (hwrong.2.2.1 ▸ h1)
          · exact Or.inr ⟨k, hk1, by rw [hwrong.2.1]; exact hk2, hk3, hwrong.2.2.1 ▸ hk4⟩
        · rcases hwrong.2.2.2 with h1 | h2
          · exact Or.inl (h1.trans hcore.2.2.2.1)
          · exact Or.inr h2
      · have hEq : (setSettings1 s sock p).1.settings = s.settings := by
          simp only [setSettings1]
          rw [if_pos (by simpa using hm)]
        exact hTriv st2 (hB.trans hEq)

/-- Witness for C4 (amended): the locked stable-baseline handler ignores a
rounds change while the game is active. -/
theorem setSettings_amended_witness :
    setSettingsSB cActive "P1" { rounds := some 5 } = (cActive, []) :=
  (setSettings_amended cActive "P1" { rounds := some 5 }).2.1
    ⟨.active, 0, ["P1", "P2"], 0, some cRoundActive⟩ rfl (by decide)

/-- C7 (amended): `setter:submitPhrase`, invoked by the current setter in
`waiting_phrase`.  In `part_001` the only validation is the configured
length bounds on the trimmed input — there is no character validation, and
`raw` becomes the uppercased trimmed input, not a normalised phrase.  In
the stable baseline of `server.js`, length is checked against the fixed
3-50 window (not the configured bounds) and characters are validated by
the digits-allowing `normalizePhrase`.  In both variants every rejection
emits `error:phrase` to the submitting connection only and leaves the
session unchanged, and success resets the round fields, snapshots
`guesserOrder` as all players except the setter with `turnIndex` 0,
computes `masked` over the empty guessed set, and transitions to
`active`. -/
theorem submitPhrase_amended (atv : Option String) (ps : List Player)
    (st : Settings) (ri : Int) (so : List String) (sp : Nat) (r : Round)
    (sock phrase hint : String) (hsetter : r.setterId = sock) :
    ((jsTrimStr phrase).length < st.minLen ∨ (jsTrimStr phrase).length > st.maxLen →
      submitPhrase1 (mkWaiting atv ps st ri so sp r) sock phrase hint =
        (mkWaiting atv ps st ri so sp r,
         [.errPhrase sock ("Phrase must be " ++ toString st.minLen ++ "–"
            ++ toString st.maxLen ++ " characters.")])) ∧
    (st.minLen ≤ (jsTrimStr phrase).length → (jsTrimStr phrase).length ≤ st.maxLen →
      submitPhrase1 (mkWaiting atv ps st ri so sp r) sock phrase hint =
        (⟨atv, ps, st, some ⟨.active, ri, so, sp, some { r with
            raw := jsUpper (jsTrimStr phrase)
            hint := hint.take 120
            hintShown := false
            guessedLetters := []
            wrongCount := 0
            masked := buildMasked1 (jsUpper (jsTrimStr phrase)) []
            guesserOrder := (ps.filter (fun p => p.id ≠ r.setterId)).map (·.id)
            turnIndex := 0 }⟩⟩,
         [.gameStateB, .setterOk sock])) ∧
    ((jsTrimStr phrase).length < 3 ∨ 50 < (jsTrimStr phrase).length →
      submitPhraseSB (mkWaiting atv ps st ri so sp r) sock phrase hint =
        (mkWaiting atv ps st ri so sp r,
         [.errPhrase sock "Phrase must be 3–50 characters."])) ∧
    (3 ≤ (jsTrimStr phrase).length → (jsTrimStr phrase).length ≤ 50 →
     normalizePhraseD (jsTrimStr phrase) = none →
      submitPhraseSB (mkWaiting atv ps st ri so sp r) sock phrase hint =
        (mkWaiting atv ps st ri so sp r,
         [.errPhrase sock "Only letters, numbers, spaces, apostrophes, dashes, and periods are allowed."])) ∧
    (∀ norm, 3 ≤ (jsTrimStr phrase).length → (jsTrimStr phrase).length ≤ 50 →
     normalizePhraseD (jsTrimStr phrase) = some norm →
      submitPhraseSB (mkWaiting atv ps st ri so sp r) sock phrase hint =
        (⟨atv, ps, st, some ⟨.active, ri, so, sp, some { r with
            raw := norm
            hint := hint.take 120
            hintShown := false
            guessedLetters := []
            masked := buildMasked norm []
            guesserOrder := (ps.filter (fun p => p.id ≠ r.setterId)).map (·.id)
            turnIndex := 0 }⟩⟩,
         [.gameStateB, .setterOk sock])) := by
  refine ⟨?_, ?_, ?_, ?_, ?_⟩
  · intro hlen
    simp [submitPhrase1, mkWaiting, hsetter, hlen]
  · intro h1 h2
    simp [submitPhrase1, mkWaiting, hsetter]
    exact ⟨h1, h2⟩
  · intro hlen
    simp [submitPhraseSB, mkWaiting, hsetter, hlen]
  · intro h1 h2 hnone
    simp [submitPhraseSB, mkWaiting, hsetter, hnone]
    exact ⟨h1, h2⟩
  · intro norm h1 h2 hsome
    simp [submitPhraseSB, mkWaiting, hsetter, hsome]
    exact ⟨h1, h2⟩

/-- Witness for C7 (amended): a two-character phrase is rejected by
`part_001` with `error:phrase` to the setter only, session unchanged. -/
theorem submitPhrase_amended_witness :
    submitPhrase1 (mkWaiting (some "ATV") cPs2 defaultSettings 0 ["P1", "P2"] 0 cRoundWait)
        "P1" "ab" "hm" =
      (mkWaiting (some "ATV") cPs2 defaultSettings 0 ["P1", "P2"] 0 cRoundWait,
       [.errPhrase "P1" "Phrase must be 3–50 characters."]) :=
  (submitPhrase_amended (some "ATV") cPs2 defaultSettings 0 ["P1", "P2"] 0 cRoundWait
    "P1" "ab" "hm" rfl).1 (by decide)

/-! ## Masking-invariant helper lemmas (for C6) -/

theorem maskedInv_mk (atv : Option String) (ps : List Player) (st : Settings)
    (g : Game)
    (h : ∀ r, g.round = some r → (g.state = .waitingPhrase ∨ g.state = .active) →
      (∀ c ∈ r.raw.toList, isLowerAlpha c = false) ∧
      r.masked = buildMasked1 r.raw r.guessedLetters) :
    maskedInv ⟨atv, ps, st, some g⟩ := by
  intro g2 r2 hg2 hr2 hst2
  have hg3 : some g = some g2 := hg2
  injection hg3 with h3
  subst h3
  exact h r2 hr2 hst2

theorem maskedInv_of_game_eq (s s2 : Session) (h : s2.game = s.game)
    (hInv : maskedInv s) : maskedInv s2 :=
  fun g r hg hr hst => hInv g r (h ▸ hg) hr hst

theorem advanceTurnR_fields (r : Round) :
    (advanceTurnR r).raw = r.raw ∧ (advanceTurnR r).masked = r.masked ∧
    (advanceTurnR r).guessedLetters = r.guessedLetters := by
  unfold advanceTurnR
  split <;> exact ⟨rfl, rfl, rfl⟩

theorem maskedInv_submitPhrase1 (s : Session) (sock phrase hint : String)
    (hInv : maskedInv s) : maskedInv (submitPhrase1 s sock phrase hint).1 := by
  unfold submitPhrase1
  split
  · exact hInv
  next g hG =>
    split
    · exact hInv
    next hst =>
      split
      · exact hInv
      next r hR =>
        split
        · exact hInv
        next hset =>
          dsimp only
          split
          · exact hInv
          next hlen =>
            apply maskedInv_mk
            intro r2 hr2 hst2
            have hr3 : some _ = some r2 := hr2
            injection hr3 with h3
            subst h3
            constructor
            · intro c hc
              obtain ⟨d, -, hd⟩ := List.mem_map.mp hc
              exact hd ▸ isLowerAlpha_upChar d
            · rfl

theorem maskedInv_guessLetter1 (s : Session) (sock letter : String)
    (hInv : maskedInv s) : maskedInv (guessLetter1 s sock letter).1 := by
  unfold guessLetter1
  split
  · exact hInv
  next g hG =>
    split
    · exact hInv
    next hst2 =>
      have hact : g.state = .active := not_ne_iff.mp hst2
      split
      · exact hInv
      next r hR =>
        split
        · exact hInv
        next hturn =>
          split
          case h_2 => exact hInv
          next c hL =>
            split
            · exact hInv
            next hupper =>
              split
              · exact hInv
              next hfresh =>
                dsimp only
                split
                next hin =>
                  split
                  next hdone =>
                    apply maskedInv_mk
                    intro r2 hr2 hst3
                    rcases hst3 with h | h <;> simp at h
                  next hnotdone =>
                    apply maskedInv_mk
                    intro r2 hr2 hst3
                    have hr3 : some _ = some r2 := hr2
                    injection hr3 with h3
                    subst h3
                    obtain ⟨ha1, ha2, ha3⟩ := advanceTurnR_fields
                      { r with guessedLetters := r.guessedLetters ++ [c],
                               masked := buildMasked1 r.raw (r.guessedLetters ++ [c]) }
                    constructor
                    · rw [ha1]
                      exact (hInv g r hG hR (Or.inr hact)).1
                    · rw [ha1, ha2, ha3]
                next hout =>
                  split
                  next hforf =>
                    unfold finishRoundWithSetterWin
                    apply maskedInv_mk
                    intro r2 hr2 hst3
                    rcases hst3 with h | h <;> simp at h
                  next hnoforf =>
                    apply maskedInv_mk
                    intro r2 hr2 hst3
                    have hr3 : some _ = some r2 := hr2
                    injection hr3 with h3
                    subst h3
                    obtain ⟨ha1, ha2, ha3⟩ := advanceTurnR_fields
                      { r with guessedLetters := r.guessedLetters ++ [c],
                               wrongCount := r.wrongCount + 1 }
                    obtain ⟨hcanon, hmask⟩ := hInv g r hG hR (Or.inr hact)
                    constructor
                    · rw [ha1]
                      exact hcanon
                    · rw [ha1, ha2, ha3]
                      show r.masked = buildMasked1 r.raw (r.guessedLetters ++ [c])
                      rw [buildMasked1_snoc_not_mem r.raw r.guessedLetters c hcanon
                        (Bool.not_eq_true _ ▸ hout)]
                      exact hmask

theorem maskedInv_solve1 (s : Session) (sock guess : String)
    (hInv : maskedInv s) : maskedInv (solve1 s sock guess).1 := by
  unfold solve1
  split
  · exact hInv
  next g hG =>
    split
    · exact hInv
    next hst2 =>
      have hact : g.state = .active := not_ne_iff.mp hst2
      split
      · exact hInv
      next r hR =>
        split
        · exact hInv
        next hturn =>
          split
          · exact hInv
          next ng hng =>
            split
            next heq =>
              apply maskedInv_mk
              intro r2 hr2 hst3
              rcases hst3 with h | h <;> simp at h
            next hne =>
              dsimp only
              split
              next hforf =>
                unfold finishRoundWithSetterWin
                apply maskedInv_mk
                intro r2 hr2 hst3
                rcases hst3 with h | h <;> simp at h
              next hnoforf =>
                apply maskedInv_mk
                intro r2 hr2 hst3
                have hr3 : some _ = some r2 := hr2
                injection hr3 with h3
                subst h3
                obtain ⟨ha1, ha2, ha3⟩ := advanceTurnR_fields
                  { r with wrongCount := r.wrongCount + 1 }
                obtain ⟨hcanon, hmask⟩ := hInv g r hG hR (Or.inr hact)
                constructor
                · rw [ha1]
                  exact hcanon
                · rw [ha1, ha2, ha3]
                  exact hmask

theorem maskedInv_showHint (s : Session) (sock : String)
    (hInv : maskedInv s) : maskedInv (showHint s sock).1 := by
  unfold showHint
  split
  · exact hInv
  next g hG =>
    split
    · exact hInv
    next hst2 =>
      split
      · exact hInv
      next r hR =>
        split
        · exact hInv
        next hset =>
          split
          · exact hInv
          next hshown =>
            apply maskedInv_mk
            intro r2 hr2 hst3
            have hr3 : some _ = some r2 := hr2
            injection hr3 with h3
            subst h3
            exact hInv g r hG hR hst3

theorem maskedInv_disconnect1 (s : Session) (sock : String)
    (hInv : maskedInv s) :
    ∀ s2, (disconnect1 s sock).1 = some s2 → maskedInv s2 := by
  intro s2 hs2
  unfold disconnect1 at hs2
  split at hs2
  · cases hs2
  next hatv =>
    split at hs2
    next hrm =>
      injection hs2 with h
      subst h
      exact hInv
    next wasManager rest hrm =>
      dsimp only at hs2
      have hInv1 : maskedInv { s with
          players := if wasManager ∧ rest.length > 0 then promoteHead rest else rest } :=
        maskedInv_of_game_eq s _ rfl hInv
      split at hs2
      next hG =>
        injection hs2 with h
        subst h
        exact hInv1
      next g hG =>
        split at hs2
        next hR =>
          injection hs2 with h
          subst h
          exact hInv1
        next r hR =>
          split at hs2
          next hempty =>
            unfold finishRoundWithSetterWin at hs2
            dsimp only at hs2
            injection hs2 with h
            subst h
            apply maskedInv_mk
            intro r2 hr2 hst3
            rcases hst3 with h | h <;> simp at h
          next hnon =>
            injection hs2 with h
            subst h
            apply maskedInv_mk
            intro r2 hr2 hst3
            have hr3 : some _ = some r2 := hr2
            injection hr3 with h3
            subst h3
            exact hInv1 g r hG hR hst3

theorem maskedInv_startWaiting (atv : Option String) (ps : List Player)
    (st : Settings) (g : Game) :
    maskedInv ⟨atv, ps, st, some (startWaitingForPhrase g)⟩ := by
  apply maskedInv_mk
  intro r2 hr2 hst3
  unfold startWaitingForPhrase at hr2
  have hr3 : some _ = some r2 := hr2
  injection hr3 with h3
  subst h3
  constructor
  · intro c hc
    simp [String.toList] at hc
  · rfl

theorem maskedInv_startGameSB (s : Session) (sock : String)
    (hInv : maskedInv s) : maskedInv (startGameSB s sock).1 := by
  unfold startGameSB
  split
  · exact hInv
  next hm =>
    split
    · exact hInv
    next hcount =>
      dsimp only
      split
      next hempty =>
        apply maskedInv_mk
        intro r2 hr2 hst3
        rcases hst3 with h | h <;> simp at h
      next hnonempty =>
        exact maskedInv_startWaiting _ _ _ _

theorem maskedInv_nextRoundSB (s : Session) (sock : String)
    (hInv : maskedInv s) : maskedInv (nextRoundSB s sock).1 := by
  unfold nextRoundSB
  split
  · exact hInv
  next g hG =>
    split
    · exact hInv
    next hm =>
      dsimp only
      split
      next hover =>
        apply maskedInv_mk
        intro r2 hr2 hst3
        cases hr2
      next hnotover =>
        exact maskedInv_startWaiting _ _ _ _

theorem game_eq_setSettings1 (s : Session) (sock : String) (p : SettingsPayload) :
    (setSettings1 s sock p).1.game = s.game := by
  unfold setSettings1
  split <;> rfl

theorem game_eq_setSettingsSB (s : Session) (sock : String) (p : SettingsPayload) :
    (setSettingsSB s sock p).1.game = s.game := by
  unfold setSettingsSB
  split
  · rfl
  · split <;> rfl

theorem game_eq_joinSB (s : Session) (sock name : String) :
    (joinSB s sock name).1.game = s.game := by
  unfold joinSB
  split <;> rfl

theorem game_eq_rejoinSB (s : Session) (sock name : String) :
    (rejoinSB s sock name).1.game = s.game := by
  unfold rejoinSB
  dsimp only
  split <;> rfl

/-- C6 (amended): the `game:state` view never carries the raw phrase — it
is invariant under changing `raw` — and in every session satisfying the
masking invariant (established by phrase submission and preserved by every
embedded operation) the broadcast `masked` equals
`buildMasked1 raw guessedLetters` while the round is unresolved; `masked`
can coincide with the full `raw` before resolution only when `raw` has no
unguessed letter (reachable in `part_001` via letterless phrases): whenever
some letter of `raw` is unguessed, `masked ≠ raw` until the round is
resolved. -/
theorem gameState_view_amended (s : Session) (sock : String) :
    (∀ x, gameStateView1 (setRoundRaw s x) = gameStateView1 s) ∧
    (maskedInv s →
      (∀ phrase hint, maskedInv (submitPhrase1 s sock phrase hint).1) ∧
      (∀ letter, maskedInv (guessLetter1 s sock letter).1) ∧
      (∀ guess, maskedInv (solve1 s sock guess).1) ∧
      maskedInv (showHint s sock).1 ∧
      (∀ s2, (disconnect1 s sock).1 = some s2 → maskedInv s2) ∧
      maskedInv (startGameSB s sock).1 ∧
      maskedInv (nextRoundSB s sock).1 ∧
      (∀ p, maskedInv (setSettings1 s sock p).1 ∧ maskedInv (setSettingsSB s sock p).1) ∧
      (∀ name, maskedInv (joinSB s sock name).1 ∧ maskedInv (rejoinSB s sock name).1)) ∧
    (∀ g r, s.game = some g → g.round = some r → g.state = .active →
      maskedInv s →
      (∃ c ∈ r.raw.toList, isAnyAlpha c = true ∧
        r.guessedLetters.contains (upChar c) = false) →
      r.masked ≠ r.raw) := by
  refine ⟨?_, ?_, ?_⟩
  · intro x
    rcases s with ⟨atv, ps, st, g⟩
    cases g with
    | none => rfl
    | some g =>
      rcases g with ⟨state, ri, so, sp, rd⟩
      cases rd with
      | none => rfl
      | some r => rfl
  · intro hInv
    exact ⟨fun phrase hint => maskedInv_submitPhrase1 s sock phrase hint hInv,
       fun letter => maskedInv_guessLetter1 s sock letter hInv,
       fun guess => maskedInv_solve1 s sock guess hInv,
       maskedInv_showHint s sock hInv,
       maskedInv_disconnect1 s sock hInv,
       maskedInv_startGameSB s sock hInv,
       maskedInv_nextRoundSB s sock hInv,
       fun p => ⟨maskedInv_of_game_eq s _ (game_eq_setSettings1 s sock p) hInv,
                 maskedInv_of_game_eq s _ (game_eq_setSettingsSB s sock p) hInv⟩,
       fun name => ⟨maskedInv_of_game_eq s _ (game_eq_joinSB s sock name) hInv,
                    maskedInv_of_game_eq s _ (game_eq_rejoinSB s sock name) hInv⟩⟩
  · intro g r hg hr hact hInv hex
    obtain ⟨-, hmask⟩ := hInv g r hg hr (Or.inr hact)
    rw [hmask]
    exact buildMasked1_ne r.raw r.guessedLetters hex

/-- Witness for C6 (amended) on the fixture: the invariant holds, is kept
by a guess, the view ignores `raw`, and the active masked string differs
from the raw phrase. -/
theorem gameState_view_amended_witness :
    maskedInv (guessLetter1 cActive "P2" "a").1 ∧
    gameStateView1 (setRoundRaw cActive "SECRET") = gameStateView1 cActive ∧
    cRoundActive.masked ≠ cRoundActive.raw := by
  have hInv : maskedInv cActive := by
    intro g r hg hr hst
    have hg2 : some (⟨.active, 0, ["P1", "P2"], 0, some cRoundActive⟩ : Game) = some g := hg
    injection hg2 with h2
    subst h2
    have hr2 : some cRoundActive = some r := hr
    injection hr2 with h3
    subst h3
    exact ⟨by decide, by decide⟩
  refine ⟨((gameState_view_amended cActive "P2").2.1 hInv).2.1 "a",
          (gameState_view_amended cActive "P2").1 "SECRET",
          (gameState_view_amended cActive "P2").2.2
            ⟨.active, 0, ["P1", "P2"], 0, some cRoundActive⟩ cRoundActive
            rfl rfl rfl hInv (by decide)⟩

end Hangman
